import Mathlib

/-!
A shallow embedding of the boson quota engine's data-model, db-model and
context layers, with theorems checking the natural-language specification
against the code.

Python dictionaries are modelled as association lists in insertion order
(`PyDict`); Python sets are modelled as `Finset String`; Python string
values are modelled as `String`.
-/

namespace Boson

/-- A Python dict with string keys and string values, in insertion order. -/
abbrev PyDict := List (String × String)

/-- The keys of a dict, in insertion order. -/
def dictKeys (d : PyDict) : List String := d.map Prod.fst

/-- Python `d[k]` / `k in d`: first-match lookup in an association list. -/
def pyLookup {α : Type} : List (String × α) → String → Option α
  | [], _ => none
  | (k, v) :: rest, key => if k = key then some v else pyLookup rest key

/-- Python `repr` of a string value (no escaping needed for plain values). -/
def pyRepr (s : String) : String := "'" ++ s ++ "'"

/-- Python `s.lower()`. -/
def pyLower (s : String) : String := ⟨s.data.map Char.toLower⟩

/-- Python `sep.join(l)`. -/
def pyJoin (sep : String) : List String → String
  | [] => ""
  | [x] => x
  | x :: y :: rest => x ++ sep ++ pyJoin sep (y :: rest)

/-- Ordering of dict items by key, used by `sorted(..., key=lambda x: x[0])`. -/
def keyLE (a b : String × String) : Prop := a.1 ≤ b.1

instance : DecidableRel keyLE := fun a b => inferInstanceAs (Decidable (a.1 ≤ b.1))

instance : IsTotal (String × String) keyLE := ⟨fun a b => le_total a.1 b.1⟩

instance : IsTrans (String × String) keyLE := ⟨fun _ _ _ h1 h2 => le_trans h1 h2⟩

/-- `sorted(d.items(), key=lambda x: x[0])`. -/
def sortItems (d : PyDict) : PyDict := List.insertionSort keyLE d

/-- `boson.data_model.service.Service`: `__init__` stores the name and the
set of auth fields (`self.auth_fields = set(auth_fields)`). -/
structure Service where
  name : String
  auth_fields : Finset String
deriving DecidableEq

/-- `Service(name, auth_fields)`. -/
def Service.init (name : String) (auth_fields : List String) : Service :=
  ⟨name, auth_fields.toFinset⟩

/-- `boson.data_model.service.Category`. -/
structure Category where
  service : Service
  name : String
  usage_fields : Finset String
  quota_fieldsets : List (Finset String)
deriving DecidableEq

/-- `Category(service, name, usage_fields, quota_fieldsets)`:
`usage_fields` and each entry of `quota_fieldsets` are filtered to the
fields in `service.auth_fields` (`set(fld for fld in ... if fld in
service.auth_fields)`). -/
def Category.init (service : Service) (name : String) (usage_fields : List String)
    (quota_fieldsets : List (List String)) : Category :=
  { service := service
    name := name
    usage_fields := (usage_fields.filter (fun fld => fld ∈ service.auth_fields)).toFinset
    quota_fieldsets := quota_fieldsets.map
      (fun fieldset => (fieldset.filter (fun fld => fld ∈ service.auth_fields)).toFinset) }

/-- `boson.data_model.resource.Resource`. -/
structure Resource where
  service : Service
  name : String
  params : Finset String
deriving DecidableEq

/-- `Resource(service, name, params=None)`:
`self.params = set(params) if params else set()`. -/
def Resource.init (service : Service) (name : String) (params : Option (List String)) :
    Resource :=
  ⟨service, name, (params.getD []).toFinset⟩

/-- `boson.data_model.resource.SpecificResource` (the constructed object). -/
structure SpecificResource where
  resource : Resource
  param_data : PyDict
  name : String
deriving DecidableEq

/-- `SpecificResource(resource, param_data=None)`: filters `param_data` to
the keys in `resource.params`, raises `ValueError` naming the missing
fields when a param has no value, and builds the canonical name
`service/resource[/k=v...]` with parameter items sorted by key. -/
def SpecificResource.init (resource : Resource) (param_data : Option PyDict) :
    Except String SpecificResource :=
  let pd := param_data.getD []
  let filtered := pd.filter (fun kv => kv.1 ∈ resource.params)
  let missing := resource.params \ (filtered.map Prod.fst).toFinset
  if missing = ∅ then
    let base := resource.service.name ++ "/" ++ resource.name
    let nm :=
      if filtered = [] then base
      else base ++ "/" ++
        pyJoin "/" ((sortItems filtered).map (fun kv => kv.1 ++ "=" ++ pyRepr kv.2))
    .ok ⟨resource, filtered, nm⟩
  else
    .error ("Missing parameter data fields: " ++
      pyJoin ", " ((missing.sort (· ≤ ·)).map pyRepr))

/-- `SpecificResource.__hash__` is `hash(self.name)` for the interpreter's
string hash `h`. -/
def SpecificResource.hashWith (h : String → Nat) (a : SpecificResource) : Nat := h a.name

/-- `SpecificResource.__eq__`: `self.name == other.name`. -/
def SpecificResource.eqRes (a b : SpecificResource) : Bool := a.name == b.name

/-- `SpecificResource.__ne__`: `self.name != other.name`. -/
def SpecificResource.neRes (a b : SpecificResource) : Bool := a.name != b.name

/-- `boson.data_model.service.ServiceUser` (the constructed object). -/
structure ServiceUser where
  service : Service
  auth_data : PyDict
deriving DecidableEq

/-- `ServiceUser(service, auth_data)`: filters `auth_data` to the keys in
`service.auth_fields` and raises `ValueError` naming the missing fields
when an auth field has no value. -/
def ServiceUser.init (service : Service) (auth_data : PyDict) :
    Except String ServiceUser :=
  let filtered := auth_data.filter (fun kv => kv.1 ∈ service.auth_fields)
  let missing := service.auth_fields \ (filtered.map Prod.fst).toFinset
  if missing = ∅ then
    .ok ⟨service, filtered⟩
  else
    .error ("Missing auth data fields: " ++
      pyJoin ", " ((missing.sort (· ≤ ·)).map pyRepr))

/-- `boson.data_model.usage.Usage` (the constructed object). -/
structure Usage where
  spc_resource : SpecificResource
  category : Category
  usage : Int
  reserved : Int
  auth_data : PyDict
deriving DecidableEq

/-- `Usage(spc_resource, category, auth_data, usage=0, reserved=0)`: stores
the projection of `auth_data` onto `spc_resource.resource.service.auth_fields`. -/
def Usage.init (spc_resource : SpecificResource) (category : Category)
    (auth_data : PyDict) (usage : Int := 0) (reserved : Int := 0) : Usage :=
  let auth_fields := spc_resource.resource.service.auth_fields
  { spc_resource := spc_resource
    category := category
    usage := usage
    reserved := reserved
    auth_data := auth_data.filter (fun kv => kv.1 ∈ auth_fields) }

/-! ## The db model layer (`boson.db.models`) -/

/-- A Python value reaching `BaseModel.update`: either a plain scalar or a
model object carrying an `id` field (reference updates pass model objects). -/
inductive PyVal where
  | scalar : String → PyVal
  | model : String → PyVal
deriving DecidableEq

/-- `value.id` as read by `BaseModel.update` for reference values; the code
only reads it on model objects. -/
def PyVal.idOf : PyVal → String
  | .scalar s => s
  | .model i => i

/-- An attribute dictionary (`_values`, `_cache`, the base object's
attributes): assignment keeps the position of an existing key and appends
a new one, as a Python dict does. -/
abbrev ObjDict := List (String × PyVal)

/-- Python `d[k] = v`. -/
def setIn : ObjDict → String → PyVal → ObjDict
  | [], k, v => [(k, v)]
  | (k', v') :: rest, k, v =>
    if k' = k then (k, v) :: rest else (k', v') :: setIn rest k v

/-- Python `k in d`. -/
def hasKey (d : ObjDict) (k : String) : Bool := d.any (fun kv => kv.1 == k)

/-- Python `d.pop(k, None)`. -/
def popKey : ObjDict → String → ObjDict
  | [], _ => []
  | (k', v') :: rest, k => if k' = k then rest else (k', v') :: popKey rest k

/-- Python `d.update(other)`. -/
def dictUpdate (d other : ObjDict) : ObjDict :=
  other.foldl (fun acc kv => setIn acc kv.1 kv.2) d

/-- The kind of a declared reference: `Ref` (settable single reference) or
`ListRef` (list reference, not settable through `update`). -/
inductive RefKind where
  | simple
  | listRef
deriving DecidableEq

/-- `Ref.base_field`: the field name with `'_id'` appended. -/
def refBaseField (name : String) : String := name ++ "_id"

/-- The `_fields` / `_refs` configuration of a model class. -/
structure ModelClass where
  fields : List String
  refs : List (String × RefKind)
deriving DecidableEq

/-- The mutable state of a `BaseModel` instance: the underlying database
object's attributes, the cached `_values`, and the reference `_cache`. -/
structure ModelState where
  baseObj : ObjDict
  values : ObjDict
  cache : ObjDict
deriving DecidableEq

/-- The exceptions `BaseModel.update` can raise: `KeyError` for an unknown
or unsettable field, and the `AmbiguousFieldUpdate` exception of
`boson.exceptions` for a conflicting update.  (In the source,
`AmbiguousFieldUpdate` is raised without being imported into
`boson.db.models`, so the raise would actually surface as a `NameError`;
the constructor here stands for the raise statement.) -/
inductive UpdateError where
  | keyError : String → UpdateError
  | ambiguousFieldUpdate : String → UpdateError
deriving DecidableEq

/-- The local accumulators of `BaseModel.update`'s validation loop:
`values`, `cache` and `invalidate`. -/
structure PendingUpdate where
  values : ObjDict
  cache : ObjDict
  invalidate : List String
deriving DecidableEq

/-- The validation loop of `BaseModel.update`: one pass over the keyword
arguments, accumulating the values to set, the cache entries to install
and the cache entries to invalidate, raising before any mutation.  Note
the reference branch stores `values[name] = value.id` under the reference
name while its duplicate check consults `values[ref.base_field]`. -/
def validateUpdates (cls : ModelClass) :
    List (String × PyVal) → PendingUpdate → Except UpdateError PendingUpdate
  | [], acc => .ok acc
  | (name, value) :: rest, acc =>
    if name ∈ cls.fields then
      if hasKey acc.values name then
        .error (.ambiguousFieldUpdate name)
      else
        validateUpdates cls rest
          { acc with
            values := setIn acc.values name value
            invalidate :=
              if name.endsWith "_id" ∧ ¬ name.dropRight 3 ∈ acc.invalidate then
                acc.invalidate ++ [name.dropRight 3]
              else acc.invalidate }
    else
      match pyLookup cls.refs name with
      | some RefKind.simple =>
        if hasKey acc.values (refBaseField name) then
          .error (.ambiguousFieldUpdate (refBaseField name))
        else
          validateUpdates cls rest
            { acc with
              values := setIn acc.values name (PyVal.scalar value.idOf)
              cache := setIn acc.cache name value }
      | some RefKind.listRef => .error (.keyError name)
      | none => .error (.keyError name)

/-- `BaseModel.update(**kwargs)`: validate the whole change request, then
install the changes on the base object, issue one `_save` call, update
`_values` and `_cache`, and drop invalidated cache entries.  Returns the
raised error (if any), the resulting state, and the number of `_save`
calls issued to the database API. -/
def BaseModel.update (cls : ModelClass) (st : ModelState)
    (kwargs : List (String × PyVal)) : Option UpdateError × ModelState × Nat :=
  match validateUpdates cls kwargs ⟨[], [], []⟩ with
  | .error e => (some e, st, 0)
  | .ok pending =>
    let baseObj := dictUpdate st.baseObj pending.values
    let values := dictUpdate st.values pending.values
    let cache := dictUpdate st.cache pending.cache
    let cache := pending.invalidate.foldl popKey cache
    (none, ⟨baseObj, values, cache⟩, 1)

/-! ## The transaction handle (`boson.db.api.APITransaction`) -/

/-- A call issued to the underlying database API. -/
inductive DbCall where
  | beginCall
  | commitCall
  | rollbackCall
deriving DecidableEq

/-- `APITransaction`: the `_commit` / `_rollback` flags and the `_closed`
latch. -/
structure APITransaction where
  commitFlag : Bool
  rollbackFlag : Bool
  closed : Bool
deriving DecidableEq

/-- `API.transaction(context, commit=True, rollback=True)`. -/
def API.transaction (commit : Bool := true) (rollback : Bool := true) : APITransaction :=
  ⟨commit, rollback, false⟩

/-- `APITransaction.commit()`: a no-op when already closed, otherwise one
`dbapi.commit` call and the handle closes. -/
def APITransaction.commitTx (tx : APITransaction) : APITransaction × List DbCall :=
  if tx.closed then (tx, [])
  else ({ tx with closed := true }, [DbCall.commitCall])

/-- `APITransaction.rollback()`: a no-op when already closed, otherwise one
`dbapi.rollback` call and the handle closes. -/
def APITransaction.rollbackTx (tx : APITransaction) : APITransaction × List DbCall :=
  if tx.closed then (tx, [])
  else ({ tx with closed := true }, [DbCall.rollbackCall])

/-- `APITransaction.__enter__`: `ValueError` when the handle is closed,
otherwise one `dbapi.begin` call. -/
def APITransaction.enter (tx : APITransaction) :
    Except String (APITransaction × List DbCall) :=
  if tx.closed then .error "transaction has already been closed"
  else .ok (tx, [DbCall.beginCall])

/-- `APITransaction.__exit__`: roll back on an exception (when `_rollback`),
commit on success (when `_commit`). -/
def APITransaction.exitTx (tx : APITransaction) (excRaised : Bool) :
    APITransaction × List DbCall :=
  if excRaised then
    if tx.rollbackFlag then tx.rollbackTx else (tx, [])
  else
    if tx.commitFlag then tx.commitTx else (tx, [])

/-- One `with`-block over a transaction handle: `__enter__`, the body
(which either raises or completes normally), `__exit__`.  Returns the
handle after the block and the database API calls issued. -/
def withTransaction (tx : APITransaction) (bodyRaises : Bool) :
    Except String (APITransaction × List DbCall) :=
  match tx.enter with
  | .error e => .error e
  | .ok (tx1, calls1) =>
    let (tx2, calls2) := tx1.exitTx bodyRaises
    .ok (tx2, calls1 ++ calls2)

/-- An explicit method call placed on a transaction handle after the block. -/
inductive TxOp where
  | commitOp
  | rollbackOp
deriving DecidableEq

/-- Run a sequence of explicit `commit()` / `rollback()` calls on a handle,
collecting the database API calls issued. -/
def runTxOps (tx : APITransaction) : List TxOp → APITransaction × List DbCall
  | [] => (tx, [])
  | op :: rest =>
    let step := match op with
      | TxOp.commitOp => tx.commitTx
      | TxOp.rollbackOp => tx.rollbackTx
    let next := runTxOps step.1 rest
    (next.1, step.2 ++ next.2)

/-! ## The security context (`boson.context`) -/

/-- `boson.context.Context`.  The mutable `roles` list lives in a store and
the context holds a reference to it, so that the shallow `copy.copy` in
`elevated()` (which copies the reference, not the list) is represented
faithfully. -/
structure Context where
  user : Option String
  tenant : Option String
  rolesRef : Nat
  request_id : String
  is_admin : Bool
deriving DecidableEq

/-- The store holding the roles lists, indexed by `rolesRef`. -/
abbrev RolesStore := List (List String)

/-- The roles list a context refers to. -/
def rolesOf (store : RolesStore) (ctx : Context) : List String :=
  store.getD ctx.rolesRef []

/-- `Context.elevated()`: `copy.copy(self)` (the copy shares the roles
list), set `is_admin = True` on the copy, and append `'admin'` to the
shared roles list unless a case variant of `'admin'` is already present. -/
def Context.elevated (ctx : Context) (store : RolesStore) : Context × RolesStore :=
  let newCtx := { ctx with is_admin := true }
  let roles := rolesOf store newCtx
  if "admin" ∈ roles.map pyLower then
    (newCtx, store)
  else
    (newCtx, store.set newCtx.rolesRef (roles ++ ["admin"]))

/-! ## Association-list lemmas -/

theorem pyLookup_eq_none_iff {α : Type} (d : List (String × α)) (k : String) :
    pyLookup d k = none ↔ k ∉ d.map Prod.fst := by
  induction d with
  | nil => simp [pyLookup]
  | cons kv rest ih =>
    obtain ⟨k', v'⟩ := kv
    by_cases hk : k' = k
    · subst hk
      simp [pyLookup]
    · simp [pyLookup, hk, ih, Ne.symm hk]

theorem mem_of_pyLookup_eq_some {α : Type} {d : List (String × α)} {k : String} {v : α}
    (h : pyLookup d k = some v) : (k, v) ∈ d := by
  induction d with
  | nil => simp [pyLookup] at h
  | cons kv rest ih =>
    obtain ⟨k', v'⟩ := kv
    by_cases hk : k' = k
    · subst hk
      simp [pyLookup] at h
      simp [h]
    · simp [pyLookup, hk] at h
      exact List.mem_cons_of_mem _ (ih h)

theorem pyLookup_eq_some_of_mem {α : Type} {d : List (String × α)} {k : String} {v : α}
    (nd : (d.map Prod.fst).Nodup) (h : (k, v) ∈ d) : pyLookup d k = some v := by
  induction d with
  | nil => simp at h
  | cons kv rest ih =>
    obtain ⟨k', v'⟩ := kv
    simp only [List.map_cons, List.nodup_cons] at nd
    rcases List.mem_cons.mp h with heq | hmem
    · obtain ⟨rfl, rfl⟩ := Prod.mk.injEq .. ▸ heq
      simp [pyLookup]
    · have hkne : k' ≠ k := by
        intro hkk
        subst hkk
        exact nd.1 (List.mem_map.mpr ⟨(k', v), hmem, rfl⟩)
      simp [pyLookup, hkne]
      exact ih nd.2 hmem

theorem pyLookup_filter {α : Type} (p : String → Bool) (d : List (String × α)) (k : String) :
    pyLookup (d.filter (fun kv => p kv.1)) k = if p k then pyLookup d k else none := by
  induction d with
  | nil => simp [pyLookup]
  | cons kv rest ih =>
    obtain ⟨k', v'⟩ := kv
    by_cases hp : p k'
    · by_cases hk : k' = k
      · subst hk
        simp [List.filter, hp, pyLookup]
      · simp [List.filter, hp, pyLookup, hk, ih]
    · by_cases hk : k' = k
      · subst hk
        simp [List.filter, hp, pyLookup, ih]
      · simp [List.filter, hp, pyLookup, hk, ih]

theorem pyLookup_filter_mem {α : Type} (S : Finset String) (d : List (String × α))
    (k : String) :
    pyLookup (d.filter (fun kv => kv.1 ∈ S)) k =
      if k ∈ S then pyLookup d k else none := by
  induction d with
  | nil => by_cases hp : k ∈ S <;> simp [pyLookup, hp]
  | cons kv rest ih =>
    obtain ⟨k', v'⟩ := kv
    by_cases hp : k' ∈ S
    · by_cases hk : k' = k
      · subst hk
        simp [pyLookup, hp]
      · simp [pyLookup, hp, hk, ih]
    · by_cases hk : k' = k
      · subst hk
        simp [pyLookup, hp, ih]
      · simp [pyLookup, hp, hk, ih]

theorem nodup_keys_filter {α : Type} (p : String × α → Bool) {d : List (String × α)}
    (nd : (d.map Prod.fst).Nodup) : ((d.filter p).map Prod.fst).Nodup :=
  nd.sublist ((List.filter_sublist (p := p) d).map Prod.fst)

theorem perm_of_nodup_keys_lookup_eq {α : Type} [DecidableEq α] {d1 d2 : List (String × α)}
    (nd1 : (d1.map Prod.fst).Nodup) (nd2 : (d2.map Prod.fst).Nodup)
    (h : ∀ k, pyLookup d1 k = pyLookup d2 k) : d1.Perm d2 := by
  refine List.perm_of_nodup_nodup_toFinset_eq (nd1.of_map _) (nd2.of_map _) ?_
  ext kv
  obtain ⟨k, v⟩ := kv
  simp only [List.mem_toFinset]
  constructor
  · intro hm
    exact mem_of_pyLookup_eq_some ((h k) ▸ pyLookup_eq_some_of_mem nd1 hm)
  · intro hm
    exact mem_of_pyLookup_eq_some ((h k).symm ▸ pyLookup_eq_some_of_mem nd2 hm)

/-- The item ordering `keyLE` is antisymmetric on lists with distinct keys;
two sorted dicts that are permutations of one another are equal. -/
theorem sortItems_eq_of_perm {d1 d2 : PyDict}
    (nd1 : (d1.map Prod.fst).Nodup) (hp : d1.Perm d2) :
    sortItems d1 = sortItems d2 := by
  have nd2 : (d2.map Prod.fst).Nodup := (hp.map Prod.fst).nodup_iff.mp nd1
  have hperm : (sortItems d1).Perm (sortItems d2) :=
    (List.perm_insertionSort keyLE d1).trans (hp.trans (List.perm_insertionSort keyLE d2).symm)
  have hs1 : (sortItems d1).Sorted keyLE := List.sorted_insertionSort keyLE d1
  have hs2 : (sortItems d2).Sorted keyLE := List.sorted_insertionSort keyLE d2
  have nds1 : ((sortItems d1).map Prod.fst).Nodup :=
    ((List.perm_insertionSort keyLE d1).map Prod.fst).nodup_iff.mpr nd1
  have nds2 : ((sortItems d2).map Prod.fst).Nodup :=
    ((List.perm_insertionSort keyLE d2).map Prod.fst).nodup_iff.mpr nd2
  have strict : ∀ (l : PyDict), l.Sorted keyLE → (l.map Prod.fst).Nodup →
      l.Pairwise (fun a b => a.1 < b.1) := by
    intro l hs nd
    have hne : l.Pairwise (fun a b => a.1 ≠ b.1) := List.pairwise_map.mp nd
    exact (hs.and hne).imp (fun hab => lt_of_le_of_ne hab.1 hab.2)
  have : IsAntisymm (String × String) (fun a b => a.1 < b.1) :=
    ⟨fun a b h1 h2 => absurd (lt_trans h1 h2) (lt_irrefl _)⟩
  exact List.eq_of_perm_of_sorted hperm (strict _ hs1 nds1) (strict _ hs2 nds2)

/-- Every element of a joined list occurs verbatim inside the joined string. -/
theorem pyJoin_mem_split (sep : String) :
    ∀ (l : List String), ∀ x ∈ l, ∃ p q, pyJoin sep l = p ++ x ++ q
  | [] => by intro x hx; simp at hx
  | [a] => by
    intro x hx
    simp only [List.mem_singleton] at hx
    subst hx
    exact ⟨"", "", by simp [pyJoin, String.empty_append, String.append_empty]⟩
  | a :: b :: rest => by
    intro x hx
    rcases List.mem_cons.mp hx with rfl | hmem
    · refine ⟨"", sep ++ pyJoin sep (b :: rest), ?_⟩
      simp only [pyJoin, String.empty_append, String.append_assoc]
    · obtain ⟨p, q, hpq⟩ := pyJoin_mem_split sep (b :: rest) x hmem
      refine ⟨a ++ sep ++ p, q, ?_⟩
      simp only [pyJoin, hpq, String.append_assoc]

/-- Membership in the `missing` set computed by the constructors:
a field is missing iff it is required and has no value in the data. -/
theorem mem_missing_iff {α : Type} (S : Finset String) (d : List (String × α)) (k : String) :
    k ∈ S \ ((d.filter (fun kv => kv.1 ∈ S)).map Prod.fst).toFinset ↔
      (k ∈ S ∧ pyLookup d k = none) := by
  simp only [Finset.mem_sdiff, List.mem_toFinset]
  constructor
  · rintro ⟨hS, hnot⟩
    refine ⟨hS, ?_⟩
    rw [pyLookup_eq_none_iff]
    intro hmem
    obtain ⟨kv, hkv, hfst⟩ := List.mem_map.mp hmem
    refine hnot (List.mem_map.mpr ⟨kv, List.mem_filter.mpr ⟨hkv, ?_⟩, hfst⟩)
    simp [hfst, hS]
  · rintro ⟨hS, hnone⟩
    refine ⟨hS, ?_⟩
    intro hmem
    obtain ⟨kv, hkv, hfst⟩ := List.mem_map.mp hmem
    have : kv.1 ∉ d.map Prod.fst := hfst ▸ (pyLookup_eq_none_iff d k).mp hnone
    exact this (List.mem_map.mpr ⟨kv, (List.mem_filter.mp hkv).1, rfl⟩)

/-- The success shape of `SpecificResource.init`. -/
theorem spcres_init_ok {resource : Resource} {param_data : Option PyDict}
    {s : SpecificResource} (h : SpecificResource.init resource param_data = .ok s) :
    s.resource = resource ∧
    s.param_data = (param_data.getD []).filter (fun kv => kv.1 ∈ resource.params) ∧
    resource.params \
      ((((param_data.getD []).filter (fun kv => kv.1 ∈ resource.params)).map
        Prod.fst).toFinset) = ∅ ∧
    s.name = (if s.param_data = [] then resource.service.name ++ "/" ++ resource.name
      else resource.service.name ++ "/" ++ resource.name ++ "/" ++
        pyJoin "/" ((sortItems s.param_data).map (fun kv => kv.1 ++ "=" ++ pyRepr kv.2))) := by
  simp only [SpecificResource.init] at h
  split at h
  · next hm =>
    obtain rfl := (Except.ok.injEq _ _).mp h
    exact ⟨rfl, rfl, hm, rfl⟩
  · exact absurd h (by simp)

/-- The error shape of `SpecificResource.init`. -/
theorem spcres_init_error {resource : Resource} {param_data : Option PyDict}
    {e : String} :
    SpecificResource.init resource param_data = .error e ↔
      (resource.params \
        ((((param_data.getD []).filter (fun kv => kv.1 ∈ resource.params)).map
          Prod.fst).toFinset) ≠ ∅ ∧
       e = "Missing parameter data fields: " ++
         pyJoin ", " (((resource.params \
           ((((param_data.getD []).filter (fun kv => kv.1 ∈ resource.params)).map
             Prod.fst).toFinset)).sort (· ≤ ·)).map pyRepr)) := by
  simp only [SpecificResource.init]
  split
  · next hm => simp [hm]
  · next hm => simp [hm, eq_comm]

/-- The success shape of `ServiceUser.init`. -/
theorem svcuser_init_ok {service : Service} {auth_data : PyDict}
    {u : ServiceUser} (h : ServiceUser.init service auth_data = .ok u) :
    u.service = service ∧
    u.auth_data = auth_data.filter (fun kv => kv.1 ∈ service.auth_fields) ∧
    service.auth_fields \
      (((auth_data.filter (fun kv => kv.1 ∈ service.auth_fields)).map
        Prod.fst).toFinset) = ∅ := by
  simp only [ServiceUser.init] at h
  split at h
  · next hm =>
    obtain rfl := (Except.ok.injEq _ _).mp h
    exact ⟨rfl, rfl, hm⟩
  · exact absurd h (by simp)

/-- The error shape of `ServiceUser.init`. -/
theorem svcuser_init_error {service : Service} {auth_data : PyDict} {e : String} :
    ServiceUser.init service auth_data = .error e ↔
      (service.auth_fields \
        (((auth_data.filter (fun kv => kv.1 ∈ service.auth_fields)).map
          Prod.fst).toFinset) ≠ ∅ ∧
       e = "Missing auth data fields: " ++
         pyJoin ", " (((service.auth_fields \
           (((auth_data.filter (fun kv => kv.1 ∈ service.auth_fields)).map
             Prod.fst).toFinset)).sort (· ≤ ·)).map pyRepr)) := by
  simp only [ServiceUser.init]
  split
  · next hm => simp [hm]
  · next hm => simp [hm, eq_comm]

/-! ## Concrete fixtures for counterexamples and witnesses -/

/-- A service with two auth fields. -/
def svcNova : Service := Service.init "nova" ["user", "tenant"]

/-- A category whose usage field set is a strict subset of the service's
auth fields. -/
def catPerUser : Category := Category.init svcNova "per_user" ["user"] [["user"], []]

/-- A parameterless resource on `svcNova`. -/
def resInstances : Resource := Resource.init svcNova "instances" none

/-- The specific resource produced by `SpecificResource.init resInstances none`. -/
def spcInstances : SpecificResource := ⟨resInstances, [], "nova/instances"⟩

/-- A service with a single auth field, for the `Category` counterexample. -/
def svcSingle : Service := Service.init "svc" ["user"]

/-! ## C1 -/

/-- C1, counterexample: `Usage.__init__` keeps every key of the caller's
auth-data that is in the owning Service's `auth_fields`, not only those in
the Category's usage field set: here the key `tenant` is stored although
it is not in the Category's `usage_fields`. -/
theorem C1_counterexample :
    SpecificResource.init resInstances none = Except.ok spcInstances ∧
    "tenant" ∈ dictKeys (Usage.init spcInstances catPerUser
      [("user", "u"), ("tenant", "t")]).auth_data ∧
    "tenant" ∉ catPerUser.usage_fields := by
  refine ⟨by rfl, by decide, by decide⟩

/-- C1 (amended): for every Usage record constructed from a
SpecificResource, a Category and caller auth-data, the stored `auth_data`
is exactly the projection of the caller's auth-data onto the owning
**Service's** `auth_fields`: a key/value pair is kept if and only if it
occurs in the caller's auth-data and its key is in
`spc_resource.resource.service.auth_fields`. -/
theorem C1_usage_auth_data_projection (spc : SpecificResource) (category : Category)
    (auth_data : PyDict) (usage reserved : Int) (k v : String) :
    (k, v) ∈ (Usage.init spc category auth_data usage reserved).auth_data ↔
      ((k, v) ∈ auth_data ∧ k ∈ spc.resource.service.auth_fields) := by
  simp [Usage.init, List.mem_filter]

/-! ## C2 -/

/-- C2, counterexample: `Category.__init__` does not make the stored quota
field-set list terminate in the empty set: supplying `[["user"]]` to a
service with auth field `user` stores `[{"user"}]`, which contains no
empty set at all. -/
theorem C2_counterexample :
    (Category.init svcSingle "cat" [] [["user"]]).quota_fieldsets =
      [({"user"} : Finset String)] ∧
    (∅ : Finset String) ∉ (Category.init svcSingle "cat" [] [["user"]]).quota_fieldsets := by
  refine ⟨by decide, by decide⟩

/-- C2 (amended): the stored quota field-set list preserves the supplied
order and length (so it is ordered most specific first exactly when the
input is), with each entry filtered to the owning Service's `auth_fields`;
the list contains an empty (default) entry if and only if some supplied
field set has no field in the Service's `auth_fields` — the constructor
does not append one. -/
theorem C2_quota_fieldsets_structure (service : Service) (name : String)
    (usage_fields : List String) (quota_fieldsets : List (List String)) :
    (Category.init service name usage_fields quota_fieldsets).quota_fieldsets.length =
      quota_fieldsets.length ∧
    (∀ i f, f ∈ (Category.init service name usage_fields
        quota_fieldsets).quota_fieldsets.getD i ∅ ↔
      (f ∈ quota_fieldsets.getD i [] ∧ f ∈ service.auth_fields)) ∧
    ((∅ : Finset String) ∈ (Category.init service name usage_fields
        quota_fieldsets).quota_fieldsets ↔
      ∃ fs ∈ quota_fieldsets, ∀ f ∈ fs, f ∉ service.auth_fields) := by
  refine ⟨by simp [Category.init], ?_, ?_⟩
  · intro i f
    simp only [Category.init]
    rcases h : quota_fieldsets.get? i with _ | fs
    · rw [List.getD_eq_getD_get?, List.getD_eq_getD_get?, List.get?_eq_getElem?,
        List.getElem?_map, ← List.get?_eq_getElem?, h]
      simp
    · rw [List.getD_eq_getD_get?, List.getD_eq_getD_get?, List.get?_eq_getElem?,
        List.getElem?_map, ← List.get?_eq_getElem?, h]
      simp [List.mem_filter]
  · simp only [Category.init, List.mem_map]
    constructor
    · rintro ⟨fs, hfs, hempty⟩
      refine ⟨fs, hfs, ?_⟩
      intro f hf hauth
      have : f ∈ (fs.filter (fun fld => fld ∈ service.auth_fields)).toFinset := by
        simp [List.mem_filter, hf, hauth]
      rw [hempty] at this
      simp at this
    · rintro ⟨fs, hfs, hnone⟩
      refine ⟨fs, hfs, ?_⟩
      rw [List.toFinset_eq_empty_iff, List.filter_eq_nil_iff]
      intro f hf
      simpa using hnone f hf

/-! ## C3 -/

/-- C3: for every Category constructed from a Service and arbitrary
`usage_fields` and `quota_fieldsets` arguments, every field in the stored
usage field set, and every field of every stored quota field set, is a
member of the owning Service's `auth_fields`. -/
theorem C3_category_fields_subset (service : Service) (name : String)
    (usage_fields : List String) (quota_fieldsets : List (List String)) :
    (∀ f ∈ (Category.init service name usage_fields quota_fieldsets).usage_fields,
      f ∈ service.auth_fields) ∧
    (∀ fs ∈ (Category.init service name usage_fields quota_fieldsets).quota_fieldsets,
      ∀ f ∈ fs, f ∈ service.auth_fields) := by
  constructor
  · intro f hf
    simp only [Category.init, List.mem_toFinset, List.mem_filter] at hf
    simpa using hf.2
  · intro fs hfs f hf
    simp only [Category.init, List.mem_map] at hfs
    obtain ⟨l, _, rfl⟩ := hfs
    simp only [List.mem_toFinset, List.mem_filter] at hf
    simpa using hf.2

/-- C3, witness: the theorem applied at a concrete Category whose
construction received a field (`ghost`) outside the Service's auth fields. -/
theorem C3_witness :
    "user" ∈ (Category.init svcSingle "cat" ["user", "ghost"] [["user", "ghost"]]).usage_fields ∧
    "user" ∈ svcSingle.auth_fields :=
  ⟨by decide,
    (C3_category_fields_subset svcSingle "cat" ["user", "ghost"] [["user", "ghost"]]).1
      "user" (by decide)⟩

/-! ## C5 -/

/-- A resource with one required parameter field. -/
def resDisks : Resource := Resource.init svcNova "disks" (some ["size"])

/-- The specific resource produced by
`SpecificResource.init resDisks (some [("size", "5")])`. -/
def spcDisk : SpecificResource := ⟨resDisks, [("size", "5")], "nova/disks/size='5'"⟩

/-- C5: constructing `SpecificResource(resource, param_data)` fails —
raising `ValueError` whose message names the missing fields — if and only
if some field of `resource.params` has no value in `param_data`; on
success the stored `param_data` has exactly the keys of `resource.params`
(keys outside `resource.params` are never stored). -/
theorem C5_specific_resource_params (resource : Resource) (param_data : Option PyDict) :
    ((∃ e, SpecificResource.init resource param_data = .error e) ↔
      ∃ k ∈ resource.params, pyLookup (param_data.getD []) k = none) ∧
    (∀ e, SpecificResource.init resource param_data = .error e →
      ∀ k ∈ resource.params, pyLookup (param_data.getD []) k = none →
        ∃ p q, e = p ++ pyRepr k ++ q) ∧
    (∀ s, SpecificResource.init resource param_data = .ok s →
      (s.param_data.map Prod.fst).toFinset = resource.params) := by
  refine ⟨⟨?_, ?_⟩, ?_, ?_⟩
  · rintro ⟨e, he⟩
    obtain ⟨hne, -⟩ := spcres_init_error.mp he
    obtain ⟨k, hk⟩ := Finset.nonempty_iff_ne_empty.mpr hne
    obtain ⟨h1, h2⟩ := (mem_missing_iff _ _ _).mp hk
    exact ⟨k, h1, h2⟩
  · rintro ⟨k, hkS, hknone⟩
    refine ⟨_, spcres_init_error.mpr ⟨?_, rfl⟩⟩
    intro hempty
    have hk := (mem_missing_iff resource.params (param_data.getD []) k).mpr ⟨hkS, hknone⟩
    rw [hempty] at hk
    simp at hk
  · intro e he k hkS hknone
    obtain ⟨hne, rfl⟩ := spcres_init_error.mp he
    have hk := (mem_missing_iff resource.params (param_data.getD []) k).mpr ⟨hkS, hknone⟩
    have hmem : pyRepr k ∈ ((resource.params \
        ((((param_data.getD []).filter (fun kv => kv.1 ∈ resource.params)).map
          Prod.fst).toFinset)).sort (· ≤ ·)).map pyRepr :=
      List.mem_map.mpr ⟨k, (Finset.mem_sort _).mpr hk, rfl⟩
    obtain ⟨p, q, hpq⟩ := pyJoin_mem_split ", " _ _ hmem
    exact ⟨"Missing parameter data fields: " ++ p, q, by
      rw [hpq, String.append_assoc, String.append_assoc, String.append_assoc]⟩
  · intro s hs
    obtain ⟨-, hpd, hmiss, -⟩ := spcres_init_ok hs
    rw [hpd]
    apply Finset.ext
    intro k
    constructor
    · intro hk
      obtain ⟨kv, hkv, rfl⟩ := List.mem_map.mp (List.mem_toFinset.mp hk)
      simpa using (List.mem_filter.mp hkv).2
    · intro hk
      by_contra hnot
      have hin : k ∈ resource.params \
          ((((param_data.getD []).filter (fun kv => kv.1 ∈ resource.params)).map
            Prod.fst).toFinset) := Finset.mem_sdiff.mpr ⟨hk, hnot⟩
      rw [hmiss] at hin
      simp at hin

/-- C5, witness: the theorem's success branch applied at
`SpecificResource(resDisks, {'size': '5'})`, and its error branch applied
at `SpecificResource(resDisks, {})` where the field `size` is missing. -/
theorem C5_witness :
    ((spcDisk.param_data.map Prod.fst).toFinset = resDisks.params) ∧
    (∃ p q, ("Missing parameter data fields: 'size'" : String) = p ++ pyRepr "size" ++ q) :=
  ⟨(C5_specific_resource_params resDisks (some [("size", "5")])).2.2 spcDisk (by rfl),
   (C5_specific_resource_params resDisks (some [])).2.1
     "Missing parameter data fields: 'size'"
     (spcres_init_error.mpr ⟨by decide, by
       rw [show (resDisks.params \
           ((((some ([] : PyDict)).getD []).filter
             (fun kv => kv.1 ∈ resDisks.params)).map Prod.fst).toFinset) =
           ({"size"} : Finset String) from by decide]
       rw [Finset.sort_singleton]
       rfl⟩)
     "size" (by decide) (by rfl)⟩

/-! ## C4 -/

/-- C4: for a Resource `r` and any two parameter-data dicts (with distinct
keys, as Python dicts have) that agree on every field of `r.params`, the
two constructed SpecificResources carry the same canonical name, are equal
under `==`, not unequal under `!=`, and hash equally for every string hash
function — equality, inequality and hash being functions of the canonical
name alone. -/
theorem C4_canonical_identity (r : Resource) (d1 d2 : PyDict)
    (nd1 : (d1.map Prod.fst).Nodup) (nd2 : (d2.map Prod.fst).Nodup)
    (hagree : ∀ k ∈ r.params, pyLookup d1 k = pyLookup d2 k)
    (s1 s2 : SpecificResource)
    (h1 : SpecificResource.init r (some d1) = .ok s1)
    (h2 : SpecificResource.init r (some d2) = .ok s2) :
    s1.name = s2.name ∧ SpecificResource.eqRes s1 s2 = true ∧
    SpecificResource.neRes s1 s2 = false ∧
    ∀ h : String → Nat, SpecificResource.hashWith h s1 = SpecificResource.hashWith h s2 := by
  obtain ⟨-, hpd1, -, hname1⟩ := spcres_init_ok h1
  obtain ⟨-, hpd2, -, hname2⟩ := spcres_init_ok h2
  have e1 : (some d1).getD ([] : PyDict) = d1 := rfl
  have e2 : (some d2).getD ([] : PyDict) = d2 := rfl
  rw [e1] at hpd1
  rw [e2] at hpd2
  have hlook : ∀ k, pyLookup (d1.filter (fun kv => kv.1 ∈ r.params)) k
      = pyLookup (d2.filter (fun kv => kv.1 ∈ r.params)) k := by
    intro k
    rw [pyLookup_filter_mem, pyLookup_filter_mem]
    by_cases hp : k ∈ r.params
    · rw [if_pos hp, if_pos hp, hagree k hp]
    · rw [if_neg hp, if_neg hp]
  have hperm : (d1.filter (fun kv => kv.1 ∈ r.params)).Perm
      (d2.filter (fun kv => kv.1 ∈ r.params)) :=
    perm_of_nodup_keys_lookup_eq (nodup_keys_filter _ nd1) (nodup_keys_filter _ nd2) hlook
  have hsort : sortItems (d1.filter (fun kv => kv.1 ∈ r.params))
      = sortItems (d2.filter (fun kv => kv.1 ∈ r.params)) :=
    sortItems_eq_of_perm (nodup_keys_filter _ nd1) hperm
  have hnil : (d1.filter (fun kv => kv.1 ∈ r.params) = [])
      ↔ (d2.filter (fun kv => kv.1 ∈ r.params) = []) := by
    constructor
    · intro h
      have hp := hperm
      rw [h] at hp
      exact hp.symm.eq_nil
    · intro h
      have hp := hperm
      rw [h] at hp
      exact hp.eq_nil
  have hname : s1.name = s2.name := by
    rw [hname1, hname2, hpd1, hpd2, hsort]
    by_cases hc : d1.filter (fun kv => kv.1 ∈ r.params) = []
    · rw [if_pos hc, if_pos (hnil.mp hc)]
    · rw [if_neg hc, if_neg (fun h => hc (hnil.mpr h))]
  refine ⟨hname, ?_, ?_, fun h => ?_⟩
  · simp [SpecificResource.eqRes, hname]
  · simp [SpecificResource.neRes, hname]
  · simp [SpecificResource.hashWith, hname]

/-- C4, witness: the theorem applied to two concrete dicts that agree on
`resDisks`' single param field but differ in their extra keys. -/
theorem C4_witness :
    spcDisk.name = spcDisk.name ∧ SpecificResource.eqRes spcDisk spcDisk = true ∧
    SpecificResource.neRes spcDisk spcDisk = false ∧
    ∀ h : String → Nat, SpecificResource.hashWith h spcDisk = SpecificResource.hashWith h spcDisk :=
  C4_canonical_identity resDisks [("size", "5"), ("extra", "1")] [("other", "9"), ("size", "5")]
    (by decide) (by decide) (by decide) spcDisk spcDisk (by rfl) (by rfl)

/-! ## C9 -/

/-- The service user produced by `ServiceUser.init svcNova` on full auth
data with an extra key. -/
def userFull : ServiceUser := ⟨svcNova, [("user", "u"), ("tenant", "t")]⟩

/-- C9: constructing `ServiceUser(service, auth_data)` fails — raising
`ValueError` whose message names the missing fields — if and only if some
field of `service.auth_fields` is absent from `auth_data`; on success the
stored `auth_data` is exactly the projection of the supplied auth-data
onto `service.auth_fields` (keys outside `auth_fields` are dropped). -/
theorem C9_service_user_auth (service : Service) (auth_data : PyDict) :
    ((∃ e, ServiceUser.init service auth_data = .error e) ↔
      ∃ k ∈ service.auth_fields, pyLookup auth_data k = none) ∧
    (∀ e, ServiceUser.init service auth_data = .error e →
      ∀ k ∈ service.auth_fields, pyLookup auth_data k = none →
        ∃ p q, e = p ++ pyRepr k ++ q) ∧
    (∀ u, ServiceUser.init service auth_data = .ok u →
      ∀ k v, ((k, v) ∈ u.auth_data ↔ ((k, v) ∈ auth_data ∧ k ∈ service.auth_fields))) := by
  refine ⟨⟨?_, ?_⟩, ?_, ?_⟩
  · rintro ⟨e, he⟩
    obtain ⟨hne, -⟩ := svcuser_init_error.mp he
    obtain ⟨k, hk⟩ := Finset.nonempty_iff_ne_empty.mpr hne
    obtain ⟨h1, h2⟩ := (mem_missing_iff _ _ _).mp hk
    exact ⟨k, h1, h2⟩
  · rintro ⟨k, hkS, hknone⟩
    refine ⟨_, svcuser_init_error.mpr ⟨?_, rfl⟩⟩
    intro hempty
    have hk := (mem_missing_iff service.auth_fields auth_data k).mpr ⟨hkS, hknone⟩
    rw [hempty] at hk
    simp at hk
  · intro e he k hkS hknone
    obtain ⟨hne, rfl⟩ := svcuser_init_error.mp he
    have hk := (mem_missing_iff service.auth_fields auth_data k).mpr ⟨hkS, hknone⟩
    have hmem : pyRepr k ∈ ((service.auth_fields \
        (((auth_data.filter (fun kv => kv.1 ∈ service.auth_fields)).map
          Prod.fst).toFinset)).sort (· ≤ ·)).map pyRepr :=
      List.mem_map.mpr ⟨k, (Finset.mem_sort _).mpr hk, rfl⟩
    obtain ⟨p, q, hpq⟩ := pyJoin_mem_split ", " _ _ hmem
    exact ⟨"Missing auth data fields: " ++ p, q, by
      rw [hpq, String.append_assoc, String.append_assoc, String.append_assoc]⟩
  · intro u hu k v
    obtain ⟨-, had, -⟩ := svcuser_init_ok hu
    rw [had]
    simp [List.mem_filter]

/-- C9, witness: the theorem's success branch applied at concrete auth data
carrying an extra key, and its error branch applied where `tenant` is
missing. -/
theorem C9_witness :
    (("user", "u") ∈ userFull.auth_data ∧ ("extra", "x") ∉ userFull.auth_data) ∧
    (∃ p q, ("Missing auth data fields: 'tenant'" : String) = p ++ pyRepr "tenant" ++ q) := by
  have h := (C9_service_user_auth svcNova
    [("user", "u"), ("tenant", "t"), ("extra", "x")]).2.2 userFull (by rfl)
  refine ⟨⟨(h "user" "u").mpr ⟨by decide, by decide⟩, fun hm => ?_⟩, ?_⟩
  · exact absurd ((h "extra" "x").mp hm).2 (by decide)
  · exact (C9_service_user_auth svcNova [("user", "u")]).2.1
      "Missing auth data fields: 'tenant'"
      (svcuser_init_error.mpr ⟨by decide, by
        rw [show (svcNova.auth_fields \
            ((([("user", "u")] : PyDict).filter
              (fun kv => kv.1 ∈ svcNova.auth_fields)).map Prod.fst).toFinset) =
            ({"tenant"} : Finset String) from by decide]
        rw [Finset.sort_singleton]
        rfl⟩)
      "tenant" (by decide) (by rfl)

/-! ## C6 and C7 -/

/-- A model class with the simple field `service_id` and `name`, and the
simple reference `service` (as the db `Category` model has). -/
def clsModel : ModelClass := ⟨["service_id", "name"], [("service", RefKind.simple)]⟩

/-- A concrete model state for evaluating `update`. -/
def stModel : ModelState :=
  ⟨[("service_id", PyVal.scalar "1"), ("name", PyVal.scalar "n")],
   [("service_id", PyVal.scalar "1"), ("name", PyVal.scalar "n")],
   []⟩

/-- C6: if `BaseModel.update` raises, no partial effect is applied — the
underlying database object, the cached values and the reference cache are
unchanged and no save call is issued to the database API. -/
theorem C6_update_no_partial_effect (cls : ModelClass) (st : ModelState)
    (kwargs : List (String × PyVal)) (e : UpdateError)
    (h : (BaseModel.update cls st kwargs).1 = some e) :
    (BaseModel.update cls st kwargs).2.1 = st ∧
    (BaseModel.update cls st kwargs).2.2 = 0 := by
  rcases hv : validateUpdates cls kwargs ⟨[], [], []⟩ with e' | pending
  · constructor <;> simp [BaseModel.update, hv]
  · exfalso
    simp [BaseModel.update, hv] at h

/-- C6, witness: the theorem applied at a concrete erroring update — an
unknown field name raises `KeyError` and the state is untouched, with no
save issued. -/
theorem C6_witness :
    (BaseModel.update clsModel stModel [("bogus", PyVal.scalar "x")]).1 =
      some (UpdateError.keyError "bogus") ∧
    (BaseModel.update clsModel stModel [("bogus", PyVal.scalar "x")]).2.1 = stModel ∧
    (BaseModel.update clsModel stModel [("bogus", PyVal.scalar "x")]).2.2 = 0 :=
  ⟨by rfl,
   (C6_update_no_partial_effect clsModel stModel [("bogus", PyVal.scalar "x")]
     (UpdateError.keyError "bogus") (by rfl)).1,
   (C6_update_no_partial_effect clsModel stModel [("bogus", PyVal.scalar "x")]
     (UpdateError.keyError "bogus") (by rfl)).2⟩

/-- C7: evaluating `BaseModel.update` at the failing input.  When the
reference field `service` is processed before its id field `service_id`,
the conflicting update is **not** detected: no exception is raised, a save
is issued, and the base object is even given a bogus `service` attribute
holding the reference's id (the reference branch stores
`values[name] = value.id` while its duplicate check consults
`values[ref.base_field]`).  Only the opposite processing order raises
`AmbiguousFieldUpdate`. -/
theorem C7_conflicting_update_order_dependent :
    (BaseModel.update clsModel stModel
      [("service", PyVal.model "5"), ("service_id", PyVal.scalar "7")]).1 = none ∧
    (BaseModel.update clsModel stModel
      [("service", PyVal.model "5"), ("service_id", PyVal.scalar "7")]).2.2 = 1 ∧
    pyLookup (BaseModel.update clsModel stModel
      [("service", PyVal.model "5"), ("service_id", PyVal.scalar "7")]).2.1.baseObj
      "service" = some (PyVal.scalar "5") ∧
    pyLookup (BaseModel.update clsModel stModel
      [("service", PyVal.model "5"), ("service_id", PyVal.scalar "7")]).2.1.baseObj
      "service_id" = some (PyVal.scalar "7") ∧
    (BaseModel.update clsModel stModel
      [("service_id", PyVal.scalar "7"), ("service", PyVal.model "5")]).1 =
      some (UpdateError.ambiguousFieldUpdate "service_id") := by
  refine ⟨by rfl, by rfl, by rfl, by rfl, by rfl⟩

/-! ## C8 -/

/-- Once a transaction handle is closed, any further sequence of explicit
`commit()` / `rollback()` calls issues no database API call at all. -/
theorem runTxOps_closed (ops : List TxOp) (tx : APITransaction) (h : tx.closed = true) :
    runTxOps tx ops = (tx, []) := by
  induction ops with
  | nil => rfl
  | cons op rest ih =>
    cases op <;>
      simp [runTxOps, APITransaction.commitTx, APITransaction.rollbackTx, h, ih]

/-- C8: a `with`-block over a default-flag `APITransaction` issues exactly
one `dbapi.commit` when the body completes and exactly one
`dbapi.rollback` when the body raises; the handle is closed afterwards,
and any further `commit()` / `rollback()` calls on it are no-ops issuing
no database API call — a handle never issues a second terminating
operation. -/
theorem C8_transaction_scope (bodyRaises : Bool) (ops : List TxOp) :
    ∃ tx' trace, withTransaction (API.transaction true true) bodyRaises =
        .ok (tx', trace) ∧
      trace.count DbCall.commitCall = (if bodyRaises then 0 else 1) ∧
      trace.count DbCall.rollbackCall = (if bodyRaises then 1 else 0) ∧
      tx'.closed = true ∧
      runTxOps tx' ops = (tx', []) := by
  cases bodyRaises
  · exact ⟨⟨true, true, true⟩, [DbCall.beginCall, DbCall.commitCall],
      by rfl, by decide, by decide, by rfl, runTxOps_closed ops _ (by rfl)⟩
  · exact ⟨⟨true, true, true⟩, [DbCall.beginCall, DbCall.rollbackCall],
      by rfl, by decide, by decide, by rfl, runTxOps_closed ops _ (by rfl)⟩

/-! ## C10 -/

/-- A concrete non-admin context whose roles list is stored at index 0. -/
def ctxBase : Context := ⟨some "user", some "tenant", 0, "req", false⟩

/-- C10, counterexample: `elevated()` does *not* leave the original context
unchanged: because `copy.copy` is shallow, appending `'admin'` mutates the
roles list the original context still references — after the call the
original context's roles are `['one', 'two', 'admin']`. -/
theorem C10_counterexample :
    (Context.elevated ctxBase [["one", "two"]]).2 ≠ [["one", "two"]] ∧
    rolesOf (Context.elevated ctxBase [["one", "two"]]).2 ctxBase =
      ["one", "two", "admin"] := by
  refine ⟨by decide, by decide⟩

/-- C10 (amended): `elevated()` returns a context equal to the original
except that `is_admin` is `True`, sharing the original's roles list
(`copy.copy` is shallow); `'admin'` is appended to that shared list only
when no case variant of `'admin'` is present, so after the call the roles
list — seen through the original context as well — contains a case variant
of `'admin'`; when a variant was already present the store is untouched,
and otherwise the original context's roles gain a trailing `'admin'`. -/
theorem C10_elevated_shared_roles (ctx : Context) (store : RolesStore)
    (h : ctx.rolesRef < store.length) :
    (Context.elevated ctx store).1.is_admin = true ∧
    (Context.elevated ctx store).1.user = ctx.user ∧
    (Context.elevated ctx store).1.tenant = ctx.tenant ∧
    (Context.elevated ctx store).1.request_id = ctx.request_id ∧
    (Context.elevated ctx store).1.rolesRef = ctx.rolesRef ∧
    "admin" ∈ (rolesOf (Context.elevated ctx store).2 ctx).map pyLower ∧
    ("admin" ∈ (rolesOf store ctx).map pyLower →
      (Context.elevated ctx store).2 = store) ∧
    ("admin" ∉ (rolesOf store ctx).map pyLower →
      rolesOf (Context.elevated ctx store).2 ctx = rolesOf store ctx ++ ["admin"]) := by
  simp only [Context.elevated, rolesOf]
  by_cases hadm : "admin" ∈ (store.getD ctx.rolesRef []).map pyLower
  · rw [if_pos hadm]
    exact ⟨rfl, rfl, rfl, rfl, rfl, hadm, fun _ => rfl, fun hn => absurd hadm hn⟩
  · rw [if_neg hadm]
    have hset : ((store.set ctx.rolesRef ((store.getD ctx.rolesRef []) ++ ["admin"])).getD
        ctx.rolesRef []) = (store.getD ctx.rolesRef []) ++ ["admin"] := by
      simp [List.getD_eq_getElem?_getD, List.getElem?_set_self, h]
    refine ⟨rfl, rfl, rfl, rfl, rfl, ?_, fun ha => absurd ha hadm, fun _ => hset⟩
    rw [hset, List.map_append]
    exact List.mem_append_right _ (by decide)

/-- C10, witness: the amended theorem applied at the concrete non-admin
context: the shared roles list contains `'admin'` after the call. -/
theorem C10_witness :
    "admin" ∈ (rolesOf (Context.elevated ctxBase [["one", "two"]]).2 ctxBase).map pyLower :=
  (C10_elevated_shared_roles ctxBase [["one", "two"]] (by decide)).2.2.2.2.2.1

end Boson
